import Mathlib

/-!
A verification development for the Leadership 200 fundraising tracker
(`app.py`, `perfectapp.py`): a shallow embedding of the template-merge,
state-persistence and gift-bucketing/PDF-value pipeline, with theorems
checking the specification's claims about them.

Modelling conventions:
* Python floats are modelled as exact rationals (`ℚ`); all dollar amounts
  in this domain are far below any precision boundary.
* JSON scalar values that the code inspects are modelled by `PyVal`
  (null / number / string); a missing dictionary key is `Option.none`.
* A Python function that can raise is modelled with `Option`/`Except`
  (`Option.none` / `Except.error` = an exception was raised).
* The relational store is modelled as a single optional document plus a
  failure flag (`Store`), matching the singleton-row usage in the code.
* Drawing geometry (coordinates, colors, fonts) is outside the scope of
  the claims; `build_pdf_from_state` produces the numeric and textual
  content that `_build_pdf_from_state` computes and draws.
-/

/-- A JSON scalar value as seen by the Python code: null, a number, or a
string.  (`_parse_number` treats bools as numbers; no claim involves a
bool, so they are folded into `num`.) -/
inductive PyVal where
  | null : PyVal
  | num (q : ℚ) : PyVal
  | str (s : String) : PyVal
deriving DecidableEq, Repr

/-- The character filter of `_parse_number`'s `re.sub(r"[^0-9.\-]", "", s)`:
keep digits, the dot and the minus sign. -/
def cleanChars (s : String) : List Char :=
  s.toList.filter (fun c => c.isDigit || c == '.' || c == '-')

/-- Numeric value of a digit string, most significant digit first. -/
def digitsVal (l : List Char) : ℕ :=
  l.foldl (fun a c => a * 10 + (c.toNat - 48)) 0

/-- Value of a fractional digit string (the part after the decimal point). -/
def decimalsVal (l : List Char) : ℚ :=
  (digitsVal l : ℚ) / (10 ^ l.length)

/-- Python `float(s)` on an unsigned string drawn from the alphabet
`{0-9, ., -}`: it succeeds exactly when the string is all digits with at
most one dot and at least one digit (the grammar
`\d+(\.\d*)?` or `\.\d+`), and then denotes the decimal value. -/
def pyFloatCore (l : List Char) : Option ℚ :=
  if l.all (fun c => c.isDigit || c == '.') ∧ l.count '.' ≤ 1 ∧ l.any Char.isDigit then
    let intPart := l.takeWhile (fun c => c ≠ '.')
    let fracPart := (l.dropWhile (fun c => c ≠ '.')).drop 1
    some ((digitsVal intPart : ℚ) + decimalsVal fracPart)
  else
    Option.none

/-- Python `float(s)` on a cleaned string: an optional leading minus sign,
then an unsigned decimal literal. `Option.none` models `ValueError`. -/
def pyFloatOfCleaned (l : List Char) : Option ℚ :=
  match l with
  | '-' :: rest => (pyFloatCore rest).map (fun q => -q)
  | _ => pyFloatCore l

/-- `_parse_number` of `app.py`: `None` parses to 0, numbers to themselves,
and a string is stripped to `[0-9.\-]` characters and passed to `float`,
with a `ValueError` caught and turned into 0. -/
def parse_number (v : PyVal) : ℚ :=
  match v with
  | PyVal.null => 0
  | PyVal.num q => q
  | PyVal.str s => (pyFloatOfCleaned (cleanChars s)).getD 0

/-- Python `int(f)` on a float: truncation toward zero. -/
def pyInt (q : ℚ) : ℤ :=
  if q < 0 then ⌈q⌉ else ⌊q⌋

/-- First match group of `re.search(r"\$([\d,]+)", s)` (the regex of
`extract_amount`): scan left to right for a `$` followed by a non-empty
maximal run of digits and commas; return that run. -/
def matchDollar1 : List Char → Option (List Char)
  | [] => Option.none
  | c :: rest =>
      if c = '$' then
        let run := rest.takeWhile (fun x => x.isDigit || x == ',')
        if run.isEmpty then matchDollar1 rest else some run
      else matchDollar1 rest

/-- The optional `(?:\.\d+)?` tail of the second regex: extend the matched
run by a dot and a greedy digit run when the text after the run starts
with `.` followed by a digit. -/
def fracExt (run after : List Char) : List Char :=
  match after with
  | '.' :: d :: ds =>
      if d.isDigit then run ++ '.' :: d :: ds.takeWhile Char.isDigit
      else run
  | _ => run

/-- First match group of `re.search(r"\$([\d,]+(?:\.\d+)?)", s)` (the regex
of `_gift_base_from_label`): like `matchDollar1`, but after the digit/comma
run a `.` followed by at least one digit extends the group greedily. -/
def matchDollar2 : List Char → Option (List Char)
  | [] => Option.none
  | c :: rest =>
      if c = '$' then
        let run := rest.takeWhile (fun x => x.isDigit || x == ',')
        if run.isEmpty then matchDollar2 rest
        else some (fracExt run (rest.drop run.length))
      else matchDollar2 rest

/-- `extract_amount` of `app.py`: 0 for a falsy label or no regex match;
otherwise `int(group.replace(",", ""))`.  `Option.none` models the
`ValueError` that `int` raises when the group holds no digit. -/
def extract_amount (label : Option String) : Option ℤ :=
  match label with
  | Option.none => some 0
  | some s =>
      if s.isEmpty then some 0
      else
        match matchDollar1 s.toList with
        | Option.none => some 0
        | some run =>
            let ds := run.filter (fun c => c ≠ ',')
            if ds.isEmpty then Option.none
            else some (digitsVal ds : ℤ)

/-- `_gift_base_from_label` of `app.py`: 0.0 for a falsy label or no regex
match; otherwise `_parse_number` of the matched group. -/
def gift_base_from_label (label : Option String) : ℚ :=
  match label with
  | Option.none => 0
  | some s =>
      if s.isEmpty then 0
      else
        match matchDollar2 s.toList with
        | Option.none => 0
        | some run => parse_number (PyVal.str ⟨run⟩)

/-- One entry of the state's `gifts` list as `_build_pdf_from_state` reads
it: `g.get("amount")` (a missing key behaves like a null value). -/
structure GiftIn where
  amount : Option PyVal
deriving DecidableEq, Repr

/-- One entry of the state's `rows` list as `_build_pdf_from_state` reads
it: `r.get("label", "")`, `r.get("received", 0)`, `r.get("needed", 0)`.
`Option.none` models a missing key. -/
structure RowIn where
  label : Option String
  received : Option PyVal
  needed : Option PyVal
deriving DecidableEq, Repr

/-- The campaign-state document as `_build_pdf_from_state` reads it.
`state.get("rows", []) or []` and the gifts analogue mean a missing or
null list behaves as `[]`, which the plain list field covers. -/
structure StateIn where
  goal : Option PyVal
  title : Option String
  rows : List RowIn
  gifts : List GiftIn
deriving DecidableEq, Repr

/-- The `row_infos` record built at the top of `_build_pdf_from_state`. -/
structure RowInfo where
  label : String
  received : ℤ
  needed : ℤ
  base : ℚ
  gifts : List ℚ
deriving DecidableEq, Repr

/-- Gift normalization of `_build_pdf_from_state`: parse each `amount` and
keep the positive ones. -/
def normGifts (gifts : List GiftIn) : List ℚ :=
  (gifts.map (fun g => parse_number (g.amount.getD PyVal.null))).filter (fun a => 0 < a)

/-- Stable descending insertion by key: skip past strictly larger keys and
sit in front of the first element whose key is ≤ ours, so that elements
with equal keys keep their original relative order. -/
def insertByDesc (key : α → ℚ) (a : α) : List α → List α
  | [] => [a]
  | y :: ys => if key a < key y then y :: insertByDesc key a ys else a :: y :: ys

/-- Stable descending sort by key, modelling Python's stable
`list.sort(key=..., reverse=True)` (observationally equal to any stable
descending sort). -/
def sortByDesc (key : α → ℚ) : List α → List α
  | [] => []
  | a :: l => insertByDesc key a (sortByDesc key l)

/-- The normalized gift amounts after `gifts.sort(reverse=True)`. -/
def stateGifts (st : StateIn) : List ℚ :=
  sortByDesc id (normGifts st.gifts)

/-- Build one `row_infos` entry from a raw row. -/
def mkRowInfo (r : RowIn) : RowInfo :=
  { label := r.label.getD ""
    received := pyInt (parse_number (r.received.getD (PyVal.num 0)))
    needed := pyInt (parse_number (r.needed.getD (PyVal.num 0)))
    base := gift_base_from_label (some (r.label.getD ""))
    gifts := [] }

/-- The `row_infos` list after `row_infos.sort(key=base, reverse=True)`. -/
def stateRowInfos (st : StateIn) : List RowInfo :=
  sortByDesc (fun ri => ri.base) (st.rows.map mkRowInfo)

/-- The extracted bases of the sorted rows, highest first. -/
def stateBases (st : StateIn) : List ℚ :=
  (stateRowInfos st).map (fun ri => ri.base)

/-- `g_amt < upper` where `upper` is `float("inf")` for the topmost row
(`Option.none`) and the previous row's base otherwise. -/
def ltUb (g : ℚ) : Option ℚ → Bool
  | Option.none => true
  | some u => decide (g < u)

/-- The inner loop of the bucketing pass: walk the sorted rows carrying the
previous row's base as the upper bound; append the gift to the first row
with `base ≤ g_amt < upper` and stop (the `break`).  (`ri["base"] or 0`
is the numeric identity here: bases are nonnegative rationals.) -/
def placeGiftAux (g : ℚ) (upper : Option ℚ) : List RowInfo → List RowInfo
  | [] => []
  | ri :: rest =>
      if ri.base ≤ g ∧ ltUb g upper then
        { ri with gifts := ri.gifts ++ [g] } :: rest
      else
        ri :: placeGiftAux g (some ri.base) rest

/-- Bucket one gift into the row list (one iteration of the outer loop). -/
def placeGift (g : ℚ) (ris : List RowInfo) : List RowInfo :=
  placeGiftAux g Option.none ris

/-- The full bucketing pass: place every gift in list order. -/
def bucketGifts (gs : List ℚ) (ris : List RowInfo) : List RowInfo :=
  gs.foldl (fun acc g => placeGift g acc) ris

/-- Index of the row a gift of amount `g` is assigned to, scanning a base
list with the carried upper bound; `Option.none` when no row accepts it. -/
def assignAux (g : ℚ) (upper : Option ℚ) : List ℚ → Option ℕ
  | [] => Option.none
  | b :: bs =>
      if b ≤ g ∧ ltUb g upper then some 0
      else (assignAux g (some b) bs).map (fun j => j + 1)

/-- Assignment index of a gift against the (sorted) base list. -/
def assignIdx (bases : List ℚ) (g : ℚ) : Option ℕ :=
  assignAux g Option.none bases

/-- The per-row content that the renderer draws: the (possibly
auto-overridden) received count, the committed dollar total, and the
left-hand fraction text. -/
structure RowOut where
  label : String
  received : ℤ
  needed : ℤ
  base : ℚ
  gifts : List ℚ
  auto_total : ℚ
  frac_text : String
deriving DecidableEq, Repr

/-- The post-bucketing fixup of `_build_pdf_from_state`: compute
`auto_total`, and replace a non-positive manual `received` by the
auto-detected gift count when that count is positive; then the drawn
fraction text (`received/needed`, or bare `received` when `needed` is 0). -/
def finishRow (ri : RowInfo) : RowOut :=
  let auto_count : ℕ := ri.gifts.length
  let received : ℤ := if ri.received ≤ 0 ∧ 0 < auto_count then (auto_count : ℤ) else ri.received
  { label := ri.label
    received := received
    needed := ri.needed
    base := ri.base
    gifts := ri.gifts
    auto_total := ri.gifts.sum
    frac_text :=
      if ri.needed ≠ 0 then toString received ++ "/" ++ toString ri.needed
      else toString received }

/-- The numeric and textual content of the generated page. -/
structure PdfData where
  goal : ℚ
  title : String
  total_received : ℚ
  rows : List RowOut
  banner_total : ℤ
deriving DecidableEq, Repr

/-- `state.get("title") or "LEADERSHIP 200"`. -/
def pyTitle (t : Option String) : String :=
  match t with
  | Option.none => "LEADERSHIP 200"
  | some s => if s.isEmpty then "LEADERSHIP 200" else s

/-- The value pipeline of `_build_pdf_from_state`: parse the goal and
title, normalize and sort the gifts, build and sort the row infos, bucket
the gifts, fix up the rows, and collect the drawn totals
(`total_received_to_date`, per-row values, the bottom banner's summed
`needed`). -/
def build_pdf_from_state (st : StateIn) : PdfData :=
  let ris := bucketGifts (stateGifts st) (stateRowInfos st)
  { goal := parse_number (st.goal.getD (PyVal.num 0))
    title := pyTitle st.title
    total_received := (stateGifts st).sum
    rows := ris.map finishRow
    banner_total := (ris.map (fun ri => ri.needed)).sum }

/-- One row of the server template / merged document: `label` and `needed`
are server-authoritative concrete values; `received` is whatever JSON
scalar the client last supplied. -/
structure MRow where
  received : PyVal
  needed : ℤ
  label : String
deriving DecidableEq, Repr

/-- The merged campaign-state document.  The `gifts` field is taken
wholesale from the client (`Option.none` models a JSON null). -/
structure MState where
  goal : PyVal
  title : PyVal
  rows : List MRow
  gifts : Option (List GiftIn)
deriving DecidableEq, Repr

/-- `default_state()` of `app.py` / `perfectapp.py`: the hard-coded
template with ten pledge levels and an empty gift list. -/
def default_state : MState :=
  { goal := PyVal.num 100000000
    title := PyVal.str "LEADERSHIP 200"
    rows :=
      [ { received := PyVal.num 0, needed := 1, label := "1 Gift of $25,000,000" }
      , { received := PyVal.num 0, needed := 1, label := "1 Gift/Pledge of $20,000,000" }
      , { received := PyVal.num 1, needed := 1, label := "1 Gift/Pledge of $10,000,000" }
      , { received := PyVal.num 0, needed := 1, label := "1 Gift/Pledge of $5,000,000" }
      , { received := PyVal.num 0, needed := 2, label := "2 Gifts/Pledges of $2,500,000" }
      , { received := PyVal.num 0, needed := 10, label := "10 Gifts/Pledges of $1,000,000" }
      , { received := PyVal.num 0, needed := 14, label := "14 Gifts/Pledges of $500,000" }
      , { received := PyVal.num 0, needed := 20, label := "20 Gifts/Pledges of $250,000" }
      , { received := PyVal.num 0, needed := 50, label := "50 Gifts/Pledges of $100,000" }
      , { received := PyVal.num 0, needed := 100, label := "100 Gifts/Pledges of $50,000" } ]
    gifts := some [] }

/-- One entry of the client payload's `rows` list: `Option.none` models an
entry that is null or has no `received` key (`incoming_rows[i] or {}`
followed by the `"received" in inc` test); `some v` models an entry whose
`received` key holds the scalar `v`. -/
abbrev IncRow := Option PyVal

/-- A truthy client payload: each field is `Option.none` when the key is
missing (`rows` also when it is null, through `or []`). -/
structure Incoming where
  goal : Option PyVal
  title : Option PyVal
  rows : Option (List IncRow)
  gifts : Option (Option (List GiftIn))
deriving DecidableEq, Repr

/-- The indexed loop of `merge_state_with_template`: walk the template
rows; while client rows remain, copy a present `received` value into the
template row; template rows past the client list are unchanged, client
rows past the template are never reached. -/
def mergeRows : List MRow → List IncRow → List MRow
  | [], _ => []
  | r :: rs, [] => r :: rs
  | r :: rs, inc :: incs =>
      (match inc with
       | Option.none => r
       | some v => { r with received := v }) :: mergeRows rs incs

/-- `merge_state_with_template` of `app.py` / `perfectapp.py`: a falsy
payload (`None` or `{}`) returns the template; otherwise goal/title come
from the client when present, rows keep the template's labels and targets
with only `received` copied per index, and `gifts` is replaced wholesale
when the key is present. -/
def merge_state_with_template (incoming : Option Incoming) : MState :=
  let base := default_state
  match incoming with
  | Option.none => base
  | some inc =>
      { goal := inc.goal.getD base.goal
        title := inc.title.getD base.title
        rows := mergeRows base.rows (inc.rows.getD [])
        gifts := inc.gifts.getD base.gifts }

/-- The singleton-row `leadership_state` table: at most one document, plus
a flag modelling a storage-layer error raised on any access. -/
structure Store where
  doc : Option MState
  dbFail : Bool
deriving DecidableEq, Repr

/-- `SELECT state_json FROM leadership_state ... LIMIT 1` (an exception is
`Except.error`). -/
def dbSelect (s : Store) : Except String (Option MState) :=
  if s.dbFail then Except.error "db error" else Except.ok s.doc

/-- `INSERT`/`UPDATE` of the singleton document: both branches of the
save handler leave the store holding exactly the given document. -/
def dbPut (s : Store) (m : MState) : Except String Store :=
  if s.dbFail then Except.error "db error" else Except.ok { s with doc := some m }

/-- An HTTP response body: `{"status": "ok"}` or `{"error": msg}`. -/
inductive RespBody where
  | ok : RespBody
  | err (msg : String) : RespBody
deriving DecidableEq, Repr

/-- A JSON HTTP response with its status code. -/
structure HttpResp where
  status : ℕ
  body : RespBody
deriving DecidableEq, Repr

/-- `save_state` (`POST /api/state`): parse the payload, merge it with the
template, select the singleton row and write the merged document
(insert or update), answering `{"status": "ok"}`; every exception in that
block is caught and answered as `{"error": msg}` with status 500, leaving
the store as it was.  `payload` is the result of `request.get_json()`
(`Except.error` = the parse raised). -/
def save_state (payload : Except String (Option Incoming)) (s : Store) :
    Store × HttpResp :=
  match payload with
  | Except.error e => (s, { status := 500, body := RespBody.err e })
  | Except.ok inc =>
      let merged := merge_state_with_template inc
      match dbSelect s with
      | Except.error e => (s, { status := 500, body := RespBody.err e })
      | Except.ok _row =>
          match dbPut s merged with
          | Except.error e => (s, { status := 500, body := RespBody.err e })
          | Except.ok s2 => (s2, { status := 200, body := RespBody.ok })

/-- `get_state` (`GET /api/state`): read the singleton document; when the
table is empty, insert and return the default template.  Exceptions here
are not caught by the handler, so the result stays in `Except`. -/
def get_state (s : Store) : Except String (Store × MState) :=
  match dbSelect s with
  | Except.error e => Except.error e
  | Except.ok (some m) => Except.ok (s, m)
  | Except.ok Option.none =>
      match dbPut s default_state with
      | Except.error e => Except.error e
      | Except.ok s' => Except.ok (s', default_state)

theorem insertByDesc_perm (key : α → ℚ) (a : α) (l : List α) :
    (insertByDesc key a l).Perm (a :: l) := by
  induction l with
  | nil => simp [insertByDesc]
  | cons y ys ih =>
    simp only [insertByDesc]
    split
    · exact (ih.cons y).trans (List.Perm.swap a y ys)
    · exact List.Perm.refl _

theorem sortByDesc_perm (key : α → ℚ) (l : List α) : (sortByDesc key l).Perm l := by
  induction l with
  | nil => exact List.Perm.refl _
  | cons a l ih => exact (insertByDesc_perm key a _).trans (ih.cons a)

theorem sorted_insertByDesc (key : α → ℚ) (a : α) (l : List α)
    (h : l.Pairwise (fun x y => key y ≤ key x)) :
    (insertByDesc key a l).Pairwise (fun x y => key y ≤ key x) := by
  induction l with
  | nil => simp [insertByDesc]
  | cons y ys ih =>
    rw [List.pairwise_cons] at h
    obtain ⟨hy, hys⟩ := h
    simp only [insertByDesc]
    split
    · rename_i hlt
      refine List.Pairwise.cons ?_ (ih hys)
      intro b hb
      rcases List.mem_cons.mp ((insertByDesc_perm key a ys).mem_iff.mp hb) with rfl | hbys
      · exact le_of_lt hlt
      · exact hy b hbys
    · rename_i hge
      push_neg at hge
      refine List.Pairwise.cons ?_ (List.Pairwise.cons hy hys)
      intro b hb
      rcases List.mem_cons.mp hb with rfl | hbys
      · exact hge
      · exact le_trans (hy b hbys) hge

theorem sorted_sortByDesc (key : α → ℚ) (l : List α) :
    (sortByDesc key l).Pairwise (fun x y => key y ≤ key x) := by
  induction l with
  | nil => simp [sortByDesc]
  | cons a l ih => exact sorted_insertByDesc key a _ ih

theorem placeGiftAux_length (g : ℚ) (u : Option ℚ) (ris : List RowInfo) :
    (placeGiftAux g u ris).length = ris.length := by
  induction ris generalizing u with
  | nil => rfl
  | cons ri rest ih => simp only [placeGiftAux]; split <;> simp [ih]

theorem placeGiftAux_bases (g : ℚ) (u : Option ℚ) (ris : List RowInfo) :
    (placeGiftAux g u ris).map (fun r => r.base) = ris.map (fun r => r.base) := by
  induction ris generalizing u with
  | nil => rfl
  | cons ri rest ih => simp only [placeGiftAux]; split <;> simp [ih]

theorem placeGiftAux_getElem (g : ℚ) (u : Option ℚ) (ris : List RowInfo) (j : ℕ) :
    (placeGiftAux g u ris)[j]? = (ris[j]?).map (fun ri =>
      if assignAux g u (ris.map (fun r => r.base)) = some j then
        { ri with gifts := ri.gifts ++ [g] } else ri) := by
  induction ris generalizing u j with
  | nil => simp [placeGiftAux]
  | cons ri rest ih =>
    simp only [placeGiftAux, List.map_cons, assignAux]
    by_cases hc : ri.base ≤ g ∧ ltUb g u
    · rw [if_pos hc, if_pos hc]
      cases j with
      | zero => simp
      | succ k => simp
    · rw [if_neg hc, if_neg hc]
      cases j with
      | zero =>
        simp only [List.getElem?_cons_zero, Option.map_some']
        rw [if_neg]
        intro hB
        rcases Option.map_eq_some'.mp hB with ⟨a, _, ha⟩
        omega
      | succ k =>
        simp only [List.getElem?_cons_succ]
        rw [ih (some ri.base) k]
        cases hk : rest[k]? with
        | none => simp
        | some r2 =>
          simp only [Option.map_some']
          by_cases hA : assignAux g (some ri.base) (rest.map (fun r => r.base)) = some k
          · rw [if_pos hA, if_pos (by simp [hA])]
          · rw [if_neg hA, if_neg]
            intro hB
            rcases Option.map_eq_some'.mp hB with ⟨a, ha1, ha2⟩
            have : a = k := by omega
            exact hA (this ▸ ha1)

theorem bucketGifts_cons (g : ℚ) (gs : List ℚ) (ris : List RowInfo) :
    bucketGifts (g :: gs) ris = bucketGifts gs (placeGift g ris) := rfl

theorem bucketGifts_length (gs : List ℚ) (ris : List RowInfo) :
    (bucketGifts gs ris).length = ris.length := by
  induction gs generalizing ris with
  | nil => rfl
  | cons g gs ih => rw [bucketGifts_cons, ih, placeGift, placeGiftAux_length]

theorem bucketGifts_getElem (gs : List ℚ) (ris : List RowInfo) (j : ℕ) :
    (bucketGifts gs ris)[j]? = (ris[j]?).map (fun ri =>
      { ri with gifts := ri.gifts ++
          gs.filter (fun g => assignIdx (ris.map (fun r => r.base)) g == some j) }) := by
  induction gs generalizing ris with
  | nil =>
    show ris[j]? = _
    cases hk : ris[j]? <;> simp
  | cons g gs ih =>
    rw [bucketGifts_cons, ih (placeGift g ris)]
    rw [show (placeGift g ris).map (fun r => r.base) = ris.map (fun r => r.base) from
      placeGiftAux_bases g Option.none ris]
    rw [placeGift, placeGiftAux_getElem]
    cases hk : ris[j]? with
    | none => simp
    | some ri =>
      simp only [Option.map_some']
      by_cases hA : assignAux g Option.none (ris.map (fun r => r.base)) = some j
      · rw [if_pos hA]
        have hb : (assignIdx (ris.map (fun r => r.base)) g == some j) = true := by
          simp [assignIdx, hA]
        simp [List.filter_cons, hb]
      · rw [if_neg hA]
        have hb : (assignIdx (ris.map (fun r => r.base)) g == some j) = false := by
          simp [assignIdx, hA]
        simp [List.filter_cons, hb]

/-- The total of all rows' bucketed gift dollars. -/
def rowGiftSum (ris : List RowInfo) : ℚ :=
  (ris.map (fun ri => ri.gifts.sum)).sum

theorem rowGiftSum_placeGiftAux (g : ℚ) (u : Option ℚ) (ris : List RowInfo) :
    rowGiftSum (placeGiftAux g u ris) =
      rowGiftSum ris +
        (if (assignAux g u (ris.map (fun r => r.base))).isSome then g else 0) := by
  induction ris generalizing u with
  | nil => simp [rowGiftSum, placeGiftAux, assignAux]
  | cons ri rest ih =>
    simp only [placeGiftAux, List.map_cons, assignAux]
    by_cases hc : ri.base ≤ g ∧ ltUb g u
    · rw [if_pos hc, if_pos hc]
      simp [rowGiftSum]
      ring
    · rw [if_neg hc, if_neg hc]
      simp only [rowGiftSum, List.map_cons, List.sum_cons] at ih ⊢
      rw [ih (some ri.base)]
      cases assignAux g (some ri.base) (rest.map (fun r => r.base)) with
      | none => simp
      | some k => simp; ring

theorem rowGiftSum_bucketGifts (gs : List ℚ) (ris : List RowInfo) :
    rowGiftSum (bucketGifts gs ris) =
      rowGiftSum ris +
        (gs.filter (fun g => (assignIdx (ris.map (fun r => r.base)) g).isSome)).sum := by
  induction gs generalizing ris with
  | nil => simp [bucketGifts]
  | cons g gs ih =>
    rw [bucketGifts_cons, ih (placeGift g ris)]
    rw [show (placeGift g ris).map (fun r => r.base) = ris.map (fun r => r.base) from
      placeGiftAux_bases g Option.none ris]
    rw [placeGift, rowGiftSum_placeGiftAux]
    simp only [List.filter_cons]
    by_cases h : (assignIdx (ris.map (fun r => r.base)) g).isSome
    · rw [if_pos h]
      simp only [assignIdx] at h
      rw [if_pos h, List.sum_cons]
      ring
    · rw [if_neg h]
      simp only [assignIdx] at h
      rw [if_neg h]
      ring

theorem sum_filter_isSome_add_isNone (gs : List ℚ) (bases : List ℚ) :
    (gs.filter (fun g => (assignIdx bases g).isSome)).sum +
      (gs.filter (fun g => (assignIdx bases g).isNone)).sum = gs.sum := by
  induction gs with
  | nil => simp
  | cons g gs ih =>
    simp only [List.filter_cons, List.sum_cons]
    by_cases h : (assignIdx bases g).isSome
    · have h2 : ((assignIdx bases g).isNone = true) = False := by
        cases hx : assignIdx bases g <;> simp_all
      rw [if_pos h, if_neg (by simp [h2]), List.sum_cons, ← ih]
      ring
    · have h2 : (assignIdx bases g).isNone = true := by
        cases hx : assignIdx bases g <;> simp_all
      rw [if_neg h, if_pos h2, List.sum_cons, ← ih]
      ring

/-- The propositional reading of `ltUb`: below the upper bound, with the
topmost row unbounded. -/
def ltU (g : ℚ) : Option ℚ → Prop
  | Option.none => True
  | some u => g < u

theorem ltUb_iff (g : ℚ) (u : Option ℚ) : ltUb g u = true ↔ ltU g u := by
  cases u <;> simp [ltUb, ltU]

/-- The claim's range condition for row `j` of the base list `bs` under
carried upper bound `u`: the row's base is ≤ the amount, and the amount is
below the next-higher row's base (unbounded at the top). -/
def okAt (g : ℚ) (u : Option ℚ) (bs : List ℚ) (j : ℕ) : Prop :=
  (∃ b, bs[j]? = some b ∧ b ≤ g) ∧
  (match j with
   | 0 => ltU g u
   | k + 1 => ∃ b, bs[k]? = some b ∧ g < b)

theorem okAt_shift (g b : ℚ) (u : Option ℚ) (bs : List ℚ) (k : ℕ) :
    okAt g u (b :: bs) (k + 1) ↔ okAt g (some b) bs k := by
  cases k <;> simp [okAt, ltU]

theorem assignAux_spec (g : ℚ) (u : Option ℚ) (bs : List ℚ) (j : ℕ)
    (h : assignAux g u bs = some j) :
    okAt g u bs j ∧ ∀ i, i < j → ¬ okAt g u bs i := by
  induction bs generalizing u j with
  | nil => simp [assignAux] at h
  | cons b bs ih =>
    simp only [assignAux] at h
    by_cases hc : b ≤ g ∧ ltUb g u
    · rw [if_pos hc] at h
      obtain rfl : j = 0 := by
        cases h
        rfl
      refine ⟨⟨⟨b, by simp, hc.1⟩, (ltUb_iff g u).mp hc.2⟩, ?_⟩
      intro i hi
      omega
    · rw [if_neg hc] at h
      rcases Option.map_eq_some'.mp h with ⟨j0, hj0, rfl⟩
      obtain ⟨hok, hmin⟩ := ih (some b) j0 hj0
      refine ⟨(okAt_shift g b u bs j0).mpr hok, ?_⟩
      intro i hi
      cases i with
      | zero =>
        intro hok0
        apply hc
        obtain ⟨⟨b2, hb2, hble⟩, hlt⟩ := hok0
        simp only [List.getElem?_cons_zero, Option.some.injEq] at hb2
        subst hb2
        exact ⟨hble, (ltUb_iff g u).mpr hlt⟩
      | succ i0 =>
        rw [okAt_shift]
        exact hmin i0 (by omega)

theorem assignAux_none_of_below (g : ℚ) (u : Option ℚ) (bs : List ℚ)
    (h : ∀ b ∈ bs, g < b) : assignAux g u bs = Option.none := by
  induction bs generalizing u with
  | nil => rfl
  | cons b bs ih =>
    have hb : ¬ (b ≤ g ∧ ltUb g u) := by
      intro hc
      exact absurd (h b (by simp)) (not_lt.mpr hc.1)
    rw [assignAux, if_neg hb, ih (some b) (fun x hx => h x (List.mem_cons_of_mem b hx))]
    rfl

/-- Every row info entering the bucketing pass carries an empty gift list. -/
theorem stateRowInfos_gifts_nil (st : StateIn) (ri : RowInfo)
    (h : ri ∈ stateRowInfos st) : ri.gifts = [] := by
  unfold stateRowInfos at h
  have h2 : ri ∈ st.rows.map mkRowInfo :=
    (sortByDesc_perm (fun r => r.base) (st.rows.map mkRowInfo)).subset h
  rcases List.mem_map.mp h2 with ⟨r, _, rfl⟩
  rfl

theorem stateGifts_perm (st : StateIn) : (stateGifts st).Perm (normGifts st.gifts) :=
  sortByDesc_perm id (normGifts st.gifts)

/-- Every normalized gift amount is positive. -/
theorem stateGifts_pos (st : StateIn) (g : ℚ) (h : g ∈ stateGifts st) : 0 < g := by
  have h2 : g ∈ normGifts st.gifts := (stateGifts_perm st).subset h
  unfold normGifts at h2
  simpa using (List.of_mem_filter h2)

theorem mergeRows_length (rs : List MRow) (incs : List IncRow) :
    (mergeRows rs incs).length = rs.length := by
  induction rs generalizing incs with
  | nil => cases incs <;> rfl
  | cons r rs ih =>
    cases incs with
    | nil => rfl
    | cons inc incs => simp [mergeRows, ih]

theorem mergeRows_getElem (rs : List MRow) (incs : List IncRow) (j : ℕ) :
    (mergeRows rs incs)[j]? = (rs[j]?).map (fun r =>
      match incs[j]? with
      | some (some v) => { r with received := v }
      | _ => r) := by
  induction rs generalizing incs j with
  | nil => cases incs <;> simp [mergeRows]
  | cons r rs ih =>
    cases incs with
    | nil =>
      cases hk : (r :: rs)[j]? with
      | none => simp [mergeRows, hk]
      | some r2 => simp [mergeRows, hk]
    | cons inc incs =>
      cases j with
      | zero => cases inc <;> simp [mergeRows]
      | succ k => simp [mergeRows, ih]

theorem mergeRows_append_ignored (rs : List MRow) (incs extra : List IncRow)
    (h : rs.length ≤ incs.length) :
    mergeRows rs (incs ++ extra) = mergeRows rs incs := by
  induction rs generalizing incs with
  | nil => cases incs <;> rfl
  | cons r rs ih =>
    cases incs with
    | nil => simp at h
    | cons inc incs =>
      simp only [List.cons_append, mergeRows]
      exact congrArg _ (ih incs (by simpa using h))

/-- C4: for every client payload, the merged CampaignState has exactly the
template's number of rows in template order, with `label` and `needed`
taken from the server template at every index; and a successful
`POST /api/state` persists exactly such a merged state. -/
theorem c4_merge_template_rows_invariant :
    (∀ inc : Option Incoming,
        (merge_state_with_template inc).rows.length = default_state.rows.length)
  ∧ (∀ (inc : Option Incoming) (j : ℕ) (rm rt : MRow),
        (merge_state_with_template inc).rows[j]? = some rm →
        default_state.rows[j]? = some rt →
        rm.label = rt.label ∧ rm.needed = rt.needed)
  ∧ (∀ (inc : Option Incoming) (s : Store), s.dbFail = false →
        (save_state (Except.ok inc) s).fst.doc = some (merge_state_with_template inc)) := by
  refine ⟨?_, ?_, ?_⟩
  · intro inc
    cases inc with
    | none => rfl
    | some i => simp [merge_state_with_template, mergeRows_length]
  · intro inc j rm rt h1 h2
    cases inc with
    | none =>
      simp only [merge_state_with_template] at h1
      rw [h1] at h2
      cases h2
      exact ⟨rfl, rfl⟩
    | some i =>
      simp only [merge_state_with_template] at h1
      rw [mergeRows_getElem] at h1
      rcases Option.map_eq_some'.mp h1 with ⟨rt2, hrt2, hembed⟩
      rw [hrt2] at h2
      cases h2
      cases hv : (i.rows.getD [])[j]? with
      | none =>
        rw [hv] at hembed
        cases hembed
        exact ⟨rfl, rfl⟩
      | some o =>
        cases o with
        | none =>
          rw [hv] at hembed
          cases hembed
          exact ⟨rfl, rfl⟩
        | some v =>
          rw [hv] at hembed
          cases hembed
          exact ⟨rfl, rfl⟩
  · intro inc s hs
    simp [save_state, dbSelect, dbPut, hs]

/-- Client payload used by the concrete witnesses: one row entry setting
`received` to 5, all other keys absent. -/
def wInc : Incoming :=
  { goal := Option.none, title := Option.none
    rows := some [some (PyVal.num 5)], gifts := Option.none }

/-- A healthy, empty store used by the concrete witnesses. -/
def wStore : Store := { doc := Option.none, dbFail := false }

/-- Witness for C4 at a concrete payload and store. -/
theorem c4_witness :
    (save_state (Except.ok (some wInc)) wStore).fst.doc =
      some (merge_state_with_template (some wInc)) :=
  c4_merge_template_rows_invariant.2.2 (some wInc) wStore rfl

/-- C5: the merged `received` is the client's value exactly at the indices
where the client row is present and carries a `received` key, and the
template row otherwise; extra client rows are ignored; a missing or empty
payload gives the unmodified template. -/
theorem c5_received_passthrough :
    (∀ (inc : Incoming) (incs : List IncRow) (j : ℕ) (v : PyVal),
        inc.rows = some incs → incs[j]? = some (some v) →
        j < default_state.rows.length →
        ∃ rm : MRow, (merge_state_with_template (some inc)).rows[j]? = some rm ∧
          rm.received = v)
  ∧ (∀ (inc : Incoming) (incs : List IncRow) (j : ℕ) (rt : MRow),
        inc.rows = some incs →
        (incs[j]? = some Option.none ∨ incs.length ≤ j) →
        default_state.rows[j]? = some rt →
        (merge_state_with_template (some inc)).rows[j]? = some rt)
  ∧ merge_state_with_template Option.none = default_state
  ∧ merge_state_with_template
      (some { goal := Option.none, title := Option.none
              rows := Option.none, gifts := Option.none }) = default_state
  ∧ (∀ (inc : Incoming) (incs extra : List IncRow),
        inc.rows = some incs → default_state.rows.length ≤ incs.length →
        merge_state_with_template (some { inc with rows := some (incs ++ extra) }) =
          merge_state_with_template (some inc)) := by
  refine ⟨?_, ?_, rfl, rfl, ?_⟩
  · intro inc incs j v hrows hj hlen
    cases hrt : default_state.rows[j]? with
    | none =>
      rw [List.getElem?_eq_none_iff] at hrt
      omega
    | some rt =>
      refine ⟨{ rt with received := v }, ?_, rfl⟩
      simp only [merge_state_with_template]
      rw [mergeRows_getElem, hrt, hrows]
      simp only [Option.getD_some, hj, Option.map_some']
  · intro inc incs j rt hrows hcase hrt
    simp only [merge_state_with_template]
    rw [mergeRows_getElem, hrt, hrows]
    simp only [Option.getD_some, Option.map_some']
    rcases hcase with hnone | hlen
    · rw [hnone]
    · rw [List.getElem?_eq_none_iff.mpr hlen]
  · intro inc incs extra hrows hlen
    simp only [merge_state_with_template, hrows]
    simp only [Option.getD_some]
    rw [mergeRows_append_ignored _ _ _ hlen]

/-- Witness for C5 at a concrete payload: the client's received value 5 at
index 0 passes through the merge. -/
theorem c5_witness :
    ∃ rm : MRow,
      (merge_state_with_template (some wInc)).rows[0]? = some rm ∧
        rm.received = PyVal.num 5 :=
  c5_received_passthrough.1 wInc [some (PyVal.num 5)] 0 (PyVal.num 5) rfl rfl
    (by decide)

/-- C7: `POST /api/state` answers `{"status": "ok"}` exactly when payload
parsing and both storage accesses succeed, and otherwise answers
`{"error": msg}` with HTTP status 500; on success the merged state is
stored; the handler always produces one of these two responses (no
exception escapes). -/
theorem c7_save_state_responses (p : Except String (Option Incoming)) (s : Store) :
    ((save_state p s).snd = { status := 200, body := RespBody.ok } ↔
        (∃ inc, p = Except.ok inc) ∧ s.dbFail = false)
  ∧ ((save_state p s).snd.status = 500 ∧
        (∃ m, (save_state p s).snd.body = RespBody.err m) ↔
        ¬ ((∃ inc, p = Except.ok inc) ∧ s.dbFail = false))
  ∧ (∀ inc, p = Except.ok inc → s.dbFail = false →
        (save_state p s).fst.doc = some (merge_state_with_template inc))
  ∧ ((save_state p s).snd.status = 200 ∨ (save_state p s).snd.status = 500) := by
  cases p with
  | error e => simp [save_state]
  | ok inc =>
    cases hs : s.dbFail <;>
      simp [save_state, dbSelect, dbPut, hs]

/-- Witness for C7: a present payload against a healthy store stores the
merged document. -/
theorem c7_witness :
    (save_state (Except.ok (some wInc)) wStore).fst.doc =
      some (merge_state_with_template (some wInc)) :=
  (c7_save_state_responses (Except.ok (some wInc)) wStore).2.2.1 (some wInc) rfl rfl

/-- C8: saving a payload and then reading the state back returns exactly
the merged document. -/
theorem c8_round_trip (inc : Option Incoming) (s : Store) (h : s.dbFail = false) :
    get_state (save_state (Except.ok inc) s).fst =
      Except.ok ((save_state (Except.ok inc) s).fst, merge_state_with_template inc) := by
  simp [save_state, get_state, dbSelect, dbPut, h]

/-- Witness for C8 at a concrete payload and store. -/
theorem c8_witness :
    get_state (save_state (Except.ok (some wInc)) wStore).fst =
      Except.ok ((save_state (Except.ok (some wInc)) wStore).fst,
        merge_state_with_template (some wInc)) :=
  c8_round_trip (some wInc) wStore rfl

/-- A gift found in a rendered row's bucket was assigned there by the
range scan: its assignment index is exactly that row's index, and it is
one of the normalized positive gifts. -/
theorem build_rows_gift_mem (st : StateIn) (j : ℕ) (rj : RowOut) (g : ℚ)
    (h1 : (build_pdf_from_state st).rows[j]? = some rj) (h2 : g ∈ rj.gifts) :
    assignIdx (stateBases st) g = some j ∧ g ∈ stateGifts st := by
  have hrows : (build_pdf_from_state st).rows =
      (bucketGifts (stateGifts st) (stateRowInfos st)).map finishRow := rfl
  rw [hrows, List.getElem?_map] at h1
  rcases Option.map_eq_some'.mp h1 with ⟨ri1, hri1, hfin⟩
  rw [bucketGifts_getElem] at hri1
  rcases Option.map_eq_some'.mp hri1 with ⟨ri0, hri0, hupd⟩
  have hnil : ri0.gifts = [] := stateRowInfos_gifts_nil st ri0 (List.getElem?_mem hri0)
  subst hfin
  subst hupd
  have hg2 : g ∈ (stateGifts st).filter
      (fun g2 => assignIdx ((stateRowInfos st).map (fun r => r.base)) g2 == some j) := by
    simpa [finishRow, hnil] using h2
  have hm := List.mem_filter.mp hg2
  refine ⟨?_, hm.1⟩
  have := hm.2
  simpa [stateBases] using this

/-- C1: every positive gift lands in at most one rendered row; when it
does, that row is the first (in descending extracted-base order) whose
base is ≤ the amount with the amount below the next-higher row's base
(unbounded at the top); a gift below every base lands in no row but still
counts in the global received total. -/
theorem c1_bucketing_assignment (st : StateIn) :
    (∀ (j k : ℕ) (rj rk : RowOut) (g : ℚ),
        (build_pdf_from_state st).rows[j]? = some rj →
        (build_pdf_from_state st).rows[k]? = some rk →
        g ∈ rj.gifts → g ∈ rk.gifts → j = k)
  ∧ (∀ (j : ℕ) (rj : RowOut) (g : ℚ),
        (build_pdf_from_state st).rows[j]? = some rj → g ∈ rj.gifts →
        0 < g ∧ okAt g Option.none (stateBases st) j ∧
          ∀ i, i < j → ¬ okAt g Option.none (stateBases st) i)
  ∧ (∀ g : ℚ, g ∈ stateGifts st → (∀ b ∈ stateBases st, g < b) →
        ∀ (j : ℕ) (rj : RowOut),
          (build_pdf_from_state st).rows[j]? = some rj → g ∉ rj.gifts)
  ∧ (build_pdf_from_state st).total_received = (normGifts st.gifts).sum := by
  refine ⟨?_, ?_, ?_, ?_⟩
  · intro j k rj rk g hj hk hgj hgk
    have h1 := (build_rows_gift_mem st j rj g hj hgj).1
    have h2 := (build_rows_gift_mem st k rk g hk hgk).1
    rw [h1] at h2
    cases h2
    rfl
  · intro j rj g hj hgj
    obtain ⟨hass, hmem⟩ := build_rows_gift_mem st j rj g hj hgj
    obtain ⟨hok, hmin⟩ := assignAux_spec g Option.none (stateBases st) j hass
    exact ⟨stateGifts_pos st g hmem, hok, hmin⟩
  · intro g _hg hbelow j rj hj hgj
    have hass := (build_rows_gift_mem st j rj g hj hgj).1
    rw [assignIdx, assignAux_none_of_below g Option.none (stateBases st) hbelow] at hass
    cases hass
  · exact (stateGifts_perm st).sum_eq

/-- The concrete state used by the C1 witness: two parseable pledge rows
and one gift of 50, which belongs to the lower ($10) row. -/
def c1St : StateIn :=
  { goal := Option.none, title := Option.none
    rows :=
      [ { label := some "1 Gift of $100", received := Option.none, needed := Option.none }
      , { label := some "1 Gift of $10", received := Option.none, needed := Option.none } ]
    gifts := [ { amount := some (PyVal.num 50) } ] }

/-- Witness for C1: in `c1St` the gift of 50 sits in row 1, whose range
condition holds there and at no earlier row. -/
theorem c1_witness :
    0 < (50 : ℚ) ∧ okAt 50 Option.none (stateBases c1St) 1 ∧
      ∀ i, i < 1 → ¬ okAt 50 Option.none (stateBases c1St) i :=
  (c1_bucketing_assignment c1St).2.1 1
    { label := "1 Gift of $10", received := 1, needed := 0, base := 10
      gifts := [50], auto_total := 50, frac_text := "1" }
    50 (by with_unfolding_all rfl) (by decide)

/-- The dollar total of the normalized gifts that no row accepts. -/
def unbucketedSum (st : StateIn) : ℚ :=
  ((stateGifts st).filter (fun g => (assignIdx (stateBases st) g).isNone)).sum

/-- C2: per-row dollar sums plus the unbucketed dollar sum equal the sum of
all positive gift amounts, which is exactly the rendered global received
total; a gift parsing to a non-positive amount changes nothing. -/
theorem c2_sum_conservation (st : StateIn) :
    (((build_pdf_from_state st).rows.map (fun r => r.auto_total)).sum + unbucketedSum st
        = (build_pdf_from_state st).total_received)
  ∧ (build_pdf_from_state st).total_received = (normGifts st.gifts).sum
  ∧ ∀ g : GiftIn, parse_number (g.amount.getD PyVal.null) ≤ 0 →
      build_pdf_from_state { st with gifts := st.gifts ++ [g] } = build_pdf_from_state st := by
  refine ⟨?_, (stateGifts_perm st).sum_eq, ?_⟩
  · have hmap : (build_pdf_from_state st).rows.map (fun r => r.auto_total) =
        (bucketGifts (stateGifts st) (stateRowInfos st)).map (fun ri => ri.gifts.sum) := by
      show ((bucketGifts (stateGifts st) (stateRowInfos st)).map finishRow).map
          (fun r => r.auto_total) = _
      rw [List.map_map]
      rfl
    have hzero : rowGiftSum (stateRowInfos st) = 0 := by
      apply List.sum_eq_zero
      intro x hx
      rcases List.mem_map.mp hx with ⟨ri, hri, rfl⟩
      rw [stateRowInfos_gifts_nil st ri hri]
      rfl
    have h1 : ((build_pdf_from_state st).rows.map (fun r => r.auto_total)).sum =
        rowGiftSum (bucketGifts (stateGifts st) (stateRowInfos st)) := by
      rw [hmap]; rfl
    rw [h1, rowGiftSum_bucketGifts, hzero, zero_add]
    show _ + unbucketedSum st = (stateGifts st).sum
    have := sum_filter_isSome_add_isNone (stateGifts st) (stateBases st)
    simpa [unbucketedSum, assignIdx, stateBases] using this
  · intro g hg
    have hnorm : normGifts (st.gifts ++ [g]) = normGifts st.gifts := by
      unfold normGifts
      rw [List.map_append, List.filter_append]
      have : List.filter (fun a => decide (0 < a))
          (List.map (fun g2 => parse_number (g2.amount.getD PyVal.null)) [g]) = [] := by
        simp [List.filter_cons, not_lt.mpr hg]
      rw [this, List.append_nil]
    have hsg : stateGifts { st with gifts := st.gifts ++ [g] } = stateGifts st := by
      unfold stateGifts
      show sortByDesc id (normGifts (st.gifts ++ [g])) = _
      rw [hnorm]
    unfold build_pdf_from_state
    rw [hsg]
    rfl

/-- The empty state used by the C2 witness. -/
def c2St : StateIn :=
  { goal := Option.none, title := Option.none, rows := [], gifts := [] }

/-- Witness for C2: appending a gift of amount −5 changes nothing. -/
theorem c2_witness :
    build_pdf_from_state
        { c2St with gifts := c2St.gifts ++ [{ amount := some (PyVal.num (-5)) }] } =
      build_pdf_from_state c2St :=
  (c2_sum_conservation c2St).2.2 { amount := some (PyVal.num (-5)) } (by decide)

/-- The state used by the C3 counterexample and witness: one row with a
manually entered `received` of 0 and one gift of 100 in its bucket. -/
def c3St : StateIn :=
  { goal := Option.none, title := Option.none
    rows :=
      [ { label := some "1 Gift of $100", received := some (PyVal.num 0)
          needed := some (PyVal.num 1) } ]
    gifts := [ { amount := some (PyVal.num 100) } ] }

/-- Counterexample to C3: in `c3St` the manually entered received count is
0, yet the rendered row shows 1 — the bucketing pass overrides a
non-positive manual count with the auto-detected gift count. -/
theorem c3_counterexample :
    c3St.rows.map (fun r => pyInt (parse_number (r.received.getD (PyVal.num 0)))) = [0]
  ∧ (build_pdf_from_state c3St).rows.map (fun r => r.received) = [1]
  ∧ (build_pdf_from_state c3St).rows.map (fun r => r.frac_text) = ["1/1"] := by
  refine ⟨by with_unfolding_all rfl, by with_unfolding_all rfl, by with_unfolding_all rfl⟩

/-- C3 amended: the rendered received count is the manually entered value,
except that a manual value ≤ 0 is replaced by the row's auto-detected gift
count whenever that count is positive. -/
theorem c3_amended (st : StateIn) (j : ℕ) (ri : RowInfo) (rj : RowOut)
    (h1 : (stateRowInfos st)[j]? = some ri)
    (h2 : (build_pdf_from_state st).rows[j]? = some rj) :
    rj.received =
      if ri.received ≤ 0 ∧
          0 < ((stateGifts st).filter
            (fun g => assignIdx (stateBases st) g == some j)).length then
        (((stateGifts st).filter
            (fun g => assignIdx (stateBases st) g == some j)).length : ℤ)
      else ri.received := by
  have hrows : (build_pdf_from_state st).rows =
      (bucketGifts (stateGifts st) (stateRowInfos st)).map finishRow := rfl
  rw [hrows, List.getElem?_map, bucketGifts_getElem, h1] at h2
  have hnil : ri.gifts = [] := stateRowInfos_gifts_nil st ri (List.getElem?_mem h1)
  simp only [Option.map_some', Option.some.injEq] at h2
  subst h2
  simp [finishRow, hnil, stateBases]

/-- Witness for the amended C3 at the concrete state `c3St`. -/
theorem c3_witness :
    ({ label := "1 Gift of $100", received := 1, needed := 1, base := 100
       gifts := [100], auto_total := 100, frac_text := "1/1" } : RowOut).received =
      if ({ label := "1 Gift of $100", received := 0, needed := 1, base := 100
            gifts := [] } : RowInfo).received ≤ 0 ∧
          0 < ((stateGifts c3St).filter
            (fun g => assignIdx (stateBases c3St) g == some 0)).length then
        (((stateGifts c3St).filter
            (fun g => assignIdx (stateBases c3St) g == some 0)).length : ℤ)
      else ({ label := "1 Gift of $100", received := 0, needed := 1, base := 100
              gifts := [] } : RowInfo).received :=
  c3_amended c3St 0
    { label := "1 Gift of $100", received := 0, needed := 1, base := 100, gifts := [] }
    { label := "1 Gift of $100", received := 1, needed := 1, base := 100
      gifts := [100], auto_total := 100, frac_text := "1/1" }
    (by with_unfolding_all rfl) (by with_unfolding_all rfl)

/-- C6: rendering is total on degenerate input — base extraction returns 0
whenever the dollar regex does not match (also for empty or missing
labels), an empty state renders as zero values, and every state renders
one bar row per input row (unparseable labels included). -/
theorem c6_degenerate_totality :
    (∀ s : String, matchDollar2 s.toList = Option.none →
        gift_base_from_label (some s) = 0)
  ∧ gift_base_from_label Option.none = 0
  ∧ gift_base_from_label (some "") = 0
  ∧ (∀ st : StateIn, st.rows = [] → st.gifts = [] →
        (build_pdf_from_state st).rows = [] ∧
          (build_pdf_from_state st).total_received = 0 ∧
          (build_pdf_from_state st).banner_total = 0)
  ∧ (∀ st : StateIn, (build_pdf_from_state st).rows.length = st.rows.length) := by
  refine ⟨?_, rfl, rfl, ?_, ?_⟩
  · intro s h
    by_cases he : s.isEmpty
    · simp [gift_base_from_label, he]
    · simp only [String.toList] at h
      simp [gift_base_from_label, he, h]
  · intro st h1 h2
    rcases st with ⟨goal, title, rows, gifts⟩
    dsimp at h1 h2
    subst h1
    subst h2
    exact ⟨rfl, rfl, rfl⟩
  · intro st
    have h1 : (build_pdf_from_state st).rows.length =
        (stateRowInfos st).length := by
      show ((bucketGifts (stateGifts st) (stateRowInfos st)).map finishRow).length = _
      rw [List.length_map, bucketGifts_length]
    rw [h1]
    have h2 := (sortByDesc_perm (fun r => r.base) (st.rows.map mkRowInfo)).length_eq
    unfold stateRowInfos
    rw [h2, List.length_map]

/-- Witness for C6: an unparseable label yields base 0, and the empty state
renders as zeros. -/
theorem c6_witness :
    gift_base_from_label (some "no dollars here") = 0 ∧
      (build_pdf_from_state
          { goal := Option.none, title := Option.none, rows := [], gifts := [] }).rows = [] :=
  ⟨c6_degenerate_totality.1 "no dollars here" (by decide),
   (c6_degenerate_totality.2.2.2.1
      { goal := Option.none, title := Option.none, rows := [], gifts := [] } rfl rfl).1⟩

instance : IsAntisymm ℚ (fun a b => b ≤ a) :=
  ⟨fun _ _ h1 h2 => le_antisymm h2 h1⟩

/-- Two permuted rational lists have the same descending sort. -/
theorem sortByDesc_eq_of_perm (l1 l2 : List ℚ) (h : l1.Perm l2) :
    sortByDesc id l1 = sortByDesc id l2 := by
  apply List.eq_of_perm_of_sorted (r := fun a b => b ≤ a)
    ((sortByDesc_perm id l1).trans (h.trans (sortByDesc_perm id l2).symm))
  · simpa [id] using sorted_sortByDesc id l1
  · simpa [id] using sorted_sortByDesc id l2

/-- C9: the rendered document is invariant under permuting the gifts list —
in particular every per-row gift count, per-row dollar sum, and the global
total coincide. -/
theorem c9_gift_order_irrelevant (goal : Option PyVal) (title : Option String)
    (rows : List RowIn) (g1 g2 : List GiftIn) (h : g1.Perm g2) :
    build_pdf_from_state { goal := goal, title := title, rows := rows, gifts := g1 } =
      build_pdf_from_state { goal := goal, title := title, rows := rows, gifts := g2 } := by
  have hn : (normGifts g1).Perm (normGifts g2) := by
    unfold normGifts
    exact (h.map (fun g => parse_number (g.amount.getD PyVal.null))).filter
      (fun a => decide (0 < a))
  have hs : stateGifts { goal := goal, title := title, rows := rows, gifts := g1 } =
      stateGifts { goal := goal, title := title, rows := rows, gifts := g2 } :=
    sortByDesc_eq_of_perm _ _ hn
  unfold build_pdf_from_state
  rw [hs]
  rfl

/-- Witness for C9: swapping two gifts leaves the document unchanged. -/
theorem c9_witness :
    build_pdf_from_state
        { goal := Option.none, title := Option.none
          rows := [ { label := some "1 Gift of $100", received := Option.none
                      needed := Option.none } ]
          gifts := [ { amount := some (PyVal.num 100) }
                   , { amount := some (PyVal.num 200) } ] } =
      build_pdf_from_state
        { goal := Option.none, title := Option.none
          rows := [ { label := some "1 Gift of $100", received := Option.none
                      needed := Option.none } ]
          gifts := [ { amount := some (PyVal.num 200) }
                   , { amount := some (PyVal.num 100) } ] } :=
  c9_gift_order_irrelevant Option.none Option.none
    [ { label := some "1 Gift of $100", received := Option.none, needed := Option.none } ]
    [ { amount := some (PyVal.num 100) }, { amount := some (PyVal.num 200) } ]
    [ { amount := some (PyVal.num 200) }, { amount := some (PyVal.num 100) } ]
    (List.Perm.swap _ _ _)

theorem matchDollar1_chars (l run : List Char) (h : matchDollar1 l = some run) :
    ∀ c ∈ run, c.isDigit ∨ c = ',' := by
  induction l with
  | nil => simp [matchDollar1] at h
  | cons c rest ih =>
    simp only [matchDollar1] at h
    by_cases hc : c = '$'
    · rw [if_pos hc] at h
      by_cases hr : (rest.takeWhile (fun x => x.isDigit || x == ',')).isEmpty
      · rw [if_pos hr] at h
        exact ih h
      · rw [if_neg hr] at h
        cases h
        intro c2 hc2
        have := List.mem_takeWhile_imp hc2
        simpa using this
    · rw [if_neg hc] at h
      exact ih h

theorem matchDollar2_none_iff (l : List Char) :
    matchDollar2 l = Option.none ↔ matchDollar1 l = Option.none := by
  induction l with
  | nil => simp [matchDollar1, matchDollar2]
  | cons c rest ih =>
    simp only [matchDollar1, matchDollar2]
    by_cases hc : c = '$'
    · rw [if_pos hc, if_pos hc]
      by_cases hr : (rest.takeWhile (fun x => x.isDigit || x == ',')).isEmpty
      · rw [if_pos hr, if_pos hr]
        exact ih
      · rw [if_neg hr, if_neg hr]
        simp
    · rw [if_neg hc, if_neg hc]
      exact ih

theorem fracExt_cases (run after : List Char) :
    fracExt run after = run ∨ '.' ∈ fracExt run after := by
  unfold fracExt
  split
  · rename_i d ds
    by_cases hd : d.isDigit
    · rw [if_pos hd]
      right
      simp
    · rw [if_neg hd]
      left
      rfl
  · left
    rfl

theorem matchDollar1_of_matchDollar2_no_dot (l grp : List Char)
    (h : matchDollar2 l = some grp) (hd : '.' ∉ grp) :
    matchDollar1 l = some grp := by
  induction l with
  | nil => simp [matchDollar2] at h
  | cons c rest ih =>
    simp only [matchDollar2] at h
    simp only [matchDollar1]
    by_cases hc : c = '$'
    · rw [if_pos hc] at h ⊢
      by_cases hr : (rest.takeWhile (fun x => x.isDigit || x == ',')).isEmpty
      · rw [if_pos hr] at h ⊢
        exact ih h
      · rw [if_neg hr] at h ⊢
        cases h
        rcases fracExt_cases (rest.takeWhile (fun x => x.isDigit || x == ','))
            ((rest.drop (rest.takeWhile (fun x => x.isDigit || x == ',')).length)) with
          heq | hmem
        · rw [heq]
        · exact absurd hmem hd
    · rw [if_neg hc] at h ⊢
      exact ih h

theorem takeWhile_all (p : Char → Bool) (l : List Char)
    (h : ∀ c ∈ l, p c = true) : l.takeWhile p = l := by
  induction l with
  | nil => rfl
  | cons c t ih =>
    rw [List.takeWhile_cons, if_pos (h c (by simp))]
    rw [ih (fun x hx => h x (List.mem_cons_of_mem c hx))]

theorem dropWhile_all (p : Char → Bool) (l : List Char)
    (h : ∀ c ∈ l, p c = true) : l.dropWhile p = [] := by
  induction l with
  | nil => rfl
  | cons c t ih =>
    rw [List.dropWhile_cons, if_pos (h c (by simp))]
    exact ih (fun x hx => h x (List.mem_cons_of_mem c hx))

theorem pyFloatCore_digits (l : List Char) (h : ∀ c ∈ l, c.isDigit = true)
    (hne : l ≠ []) : pyFloatCore l = some (digitsVal l : ℚ) := by
  have hall : l.all (fun c => c.isDigit || c == '.') = true := by
    rw [List.all_eq_true]
    intro c hc
    simp [h c hc]
  have hdot : ('.' : Char) ∉ l := by
    intro hmem
    have := h '.' hmem
    simp at this
  have hcount : l.count '.' ≤ 1 := by
    rw [List.count_eq_zero.mpr hdot]
    omega
  have hany : l.any Char.isDigit = true := by
    rw [List.any_eq_true]
    rcases List.exists_mem_of_ne_nil l hne with ⟨c, hc⟩
    exact ⟨c, hc, h c hc⟩
  rw [pyFloatCore, if_pos ⟨hall, hcount, hany⟩]
  have ht : l.takeWhile (fun c => c ≠ '.') = l := by
    apply takeWhile_all
    intro c hc
    have : c ≠ '.' := fun he => hdot (he ▸ hc)
    simpa using this
  have hd : l.dropWhile (fun c => c ≠ '.') = [] := by
    apply dropWhile_all
    intro c hc
    have : c ≠ '.' := fun he => hdot (he ▸ hc)
    simpa using this
  rw [ht, hd]
  simp [decimalsVal, digitsVal]

theorem pyFloatOfCleaned_digits (l : List Char) (h : ∀ c ∈ l, c.isDigit = true)
    (hne : l ≠ []) : pyFloatOfCleaned l = some (digitsVal l : ℚ) := by
  cases l with
  | nil => exact absurd rfl hne
  | cons d t =>
    have hd : d.isDigit = true := h d (by simp)
    show pyFloatOfCleaned (d :: t) = _
    unfold pyFloatOfCleaned
    split
    · rename_i rest heq
      injection heq with h1 h2
      subst h1
      simp at hd
    · exact pyFloatCore_digits (d :: t) h hne

/-- C10 amended: on every label whose first dollar group is not followed by
a decimal fraction AND contains at least one digit, the two parsers agree
(`extract_amount` returns an integer whose value `_gift_base_from_label`
returns as a float), and both return 0 on no match and on empty or missing
labels; when the matched group holds no digit (commas only),
`extract_amount` raises `ValueError` while `_gift_base_from_label`
returns 0, so the digit requirement cannot be dropped. -/
theorem c10_parsers_agree (label : Option String)
    (hyp : ∀ grp, matchDollar2 (label.getD "").toList = some grp →
        '.' ∉ grp ∧ ∃ c ∈ grp, c.isDigit) :
    ∃ z : ℤ, extract_amount label = some z ∧ gift_base_from_label label = (z : ℚ) := by
  cases label with
  | none => exact ⟨0, rfl, by simp [gift_base_from_label]⟩
  | some s =>
    cases h2 : matchDollar2 s.toList with
    | none =>
      have h1 : matchDollar1 s.toList = Option.none := (matchDollar2_none_iff _).mp h2
      refine ⟨0, ?_, ?_⟩
      · by_cases he : s.isEmpty
        · simp [extract_amount, he]
        · simp only [extract_amount, he, Bool.false_eq_true, if_false]
          rw [h1]
      · by_cases he : s.isEmpty
        · simp [gift_base_from_label, he]
        · simp only [gift_base_from_label, he, Bool.false_eq_true, if_false]
          rw [h2]
          simp
    | some grp =>
      obtain ⟨hdot, c0, hc0, hdig⟩ := hyp grp (by simpa using h2)
      have h1 : matchDollar1 s.toList = some grp :=
        matchDollar1_of_matchDollar2_no_dot _ _ h2 hdot
      have hchars : ∀ c ∈ grp, c.isDigit ∨ c = ',' := matchDollar1_chars _ _ h1
      have hdsmem : ∀ c ∈ grp.filter (fun c => c ≠ ','), c.isDigit = true := by
        intro c hc
        have hm := List.mem_filter.mp hc
        rcases hchars c hm.1 with h | h
        · exact h
        · exfalso
          have := hm.2
          simp [h] at this
      have hdsne : grp.filter (fun c => c ≠ ',') ≠ [] := by
        apply List.ne_nil_of_mem (a := c0)
        apply List.mem_filter.mpr
        refine ⟨hc0, ?_⟩
        have hcne : c0 ≠ ',' := by
          intro he
          subst he
          simp [Char.isDigit] at hdig
        simpa using hcne
      have hse : s.isEmpty = false := by
        by_cases he : s.isEmpty
        · exfalso
          rw [String.isEmpty_iff] at he
          subst he
          cases h2
        · simpa using he
      refine ⟨(digitsVal (grp.filter (fun c => c ≠ ',')) : ℤ), ?_, ?_⟩
      · simp only [extract_amount, hse, Bool.false_eq_true, if_false]
        rw [h1]
        dsimp only
        rw [if_neg]
        intro hcon
        rw [List.isEmpty_iff] at hcon
        exact hdsne hcon
      · simp only [gift_base_from_label, hse, Bool.false_eq_true, if_false]
        rw [h2]
        dsimp only
        have hclean : cleanChars ⟨grp⟩ = grp.filter (fun c => c ≠ ',') := by
          unfold cleanChars
          rw [show (String.mk grp).toList = grp from rfl]
          apply List.filter_congr
          intro c hc
          rcases hchars c hc with h | h
          · have hcne : c ≠ ',' := by
              intro he
              subst he
              simp [Char.isDigit] at h
            simp [h, hcne]
          · subst h
            rfl
        simp only [parse_number, hclean]
        rw [pyFloatOfCleaned_digits _ hdsmem hdsne]
        simp

/-- Counterexample to C10 as stated: the label `"$,"` is matched by both
regexes with the comma-only group `[',']` (not followed by a decimal
fraction), yet `extract_amount` raises `ValueError` (modelled as
`Option.none`) while `_gift_base_from_label` returns 0 — the parsers do
not agree there. -/
theorem c10_counterexample :
    matchDollar2 "$,".toList = some [','] ∧ ('.' ∉ ([','] : List Char)) ∧
      extract_amount (some "$,") = Option.none ∧
      gift_base_from_label (some "$,") = 0 :=
  ⟨by decide, by decide, by decide, by decide⟩

/-- Witness for the amended C10 at the default template's top label. -/
theorem c10_witness :
    ∃ z : ℤ, extract_amount (some "1 Gift of $25,000,000") = some z ∧
      gift_base_from_label (some "1 Gift of $25,000,000") = (z : ℚ) :=
  c10_parsers_agree (some "1 Gift of $25,000,000") (by
    intro grp h
    have hL : matchDollar2 ((some "1 Gift of $25,000,000").getD "").toList =
        some ['2', '5', ',', '0', '0', '0', ',', '0', '0', '0'] := by decide
    rw [hL] at h
    injection h with h4
    subst h4
    exact ⟨by decide, ⟨'2', by decide, by decide⟩⟩)
